import Mathlib

/-!
Verification of the transcript-aligned segmentation engine in `segment.py`.

The Python code is shallowly embedded: Python `float` values are modelled as
rationals (every numeric literal the claims exercise is an exactly
representable dyadic, and the code only adds, compares and takes `max`, so
the order-theoretic behaviour agrees with IEEE doubles on these inputs);
Python strings are Lean `String`s; JSON values parsed by `json.loads` are an
explicit inductive; filesystem and subprocess side effects are recorded in an
explicit effect trace produced together with the result; a raised Python
exception is an `Except.error`.
-/

namespace Seg

/-- JSON values as produced by `json.loads`. -/
inductive Json where
  | null : Json
  | bool (b : Bool) : Json
  | num (q : ℚ) : Json
  | str (s : String) : Json
  | arr (items : List Json) : Json
  | obj (fields : List (String × Json)) : Json

/-- Python `d.get(k, dflt)` on a parsed-JSON object's field list. -/
def getD (fields : List (String × Json)) (k : String) (dflt : Json) : Json :=
  match fields.lookup k with
  | some v => v
  | none => dflt

/-- Python truthiness (`bool(x)`) of a parsed-JSON value. -/
def pyTruthy : Json → Bool
  | .null => false
  | .bool b => b
  | .num q => q ≠ 0
  | .str s => s ≠ ""
  | .arr items => !items.isEmpty
  | .obj fields => !fields.isEmpty

/-- Python `str(x)` on a parsed-JSON value.  Scalar cases are exact; the
    rendering of numbers and containers is approximated (no claim stringifies
    a non-string field). -/
def pyStr : Json → String
  | .str s => s
  | .null => "None"
  | .bool true => "True"
  | .bool false => "False"
  | .num q => toString q
  | .arr _ => "[]"
  | .obj _ => "dict"

/-- Python `float(x)` on a parsed-JSON value; `none` models a raised
    `TypeError`/`ValueError`.  Numeric strings are not modelled (no claim
    supplies one). -/
def pyFloat : Json → Option ℚ
  | .num q => some q
  | .bool b => some (if b then 1 else 0)
  | _ => none

/-- Characters Python's default `str.strip()` removes (ASCII whitespace;
    the exotic Unicode whitespace Python also strips never occurs here). -/
def isWs (c : Char) : Bool :=
  c = ' ' || c = '\t' || c = '\n' || c = '\r' || c = '\x0b' || c = '\x0c'

/-- Python `str.strip()` on the character list. -/
def stripChars (l : List Char) : List Char :=
  ((l.dropWhile isWs).reverse.dropWhile isWs).reverse

/-- Python `str.strip()`. -/
def pyStrip (s : String) : String :=
  ⟨stripChars s.data⟩

/-- Python `" ".join(texts)`. -/
def joinSpace : List String → String
  | [] => ""
  | [s] => s
  | s :: rest => s ++ " " ++ joinSpace rest

/-- One timed transcript entry after loading (`text` already stripped,
    `duration` already clamped to be non-negative by `_load_entries`;
    the planner nevertheless re-applies both operations as the code does). -/
structure Entry where
  text : String
  start : ℚ
  duration : ℚ
deriving DecidableEq, Repr

/-- One iteration of the loop body of `_load_entries`:
    `none` models a raised conversion error, `some none` a skipped
    non-object element, `some (some e)` an appended entry. -/
def loadOne (j : Json) : Option (Option Entry) :=
  match j with
  | .obj fields =>
      let text := pyStrip (pyStr (getD fields "text" (.str "")))
      match pyFloat (getD fields "start" (.num 0)), pyFloat (getD fields "duration" (.num 0)) with
      | some start, some duration =>
          some (some { text := text, start := start,
                       duration := if duration < 0 then 0 else duration })
      | _, _ => none
  | _ => some none

/-- The loop of `_load_entries` over the decoded array. -/
def loadEntriesGo : List Json → Option (List Entry)
  | [] => some []
  | j :: rest =>
      match loadOne j with
      | none => none
      | some none => loadEntriesGo rest
      | some (some e) => (loadEntriesGo rest).map (e :: ·)

/-- Models `_load_entries` applied to the decoded JSON document
    (`segment.py`, lines 16-30): a non-array document yields `[]`. -/
def _load_entries (data : Json) : Option (List Entry) :=
  match data with
  | .arr items => loadEntriesGo items
  | _ => some []

/-- The loop of `_collect_text_in_window`, carrying the running index. -/
def collectGo (start e : ℚ) : Nat → List Entry → List String × List Nat
  | _, [] => ([], [])
  | idx, entry :: rest =>
      let tail := collectGo start e (idx + 1) rest
      if entry.start + entry.duration ≤ start ∨ entry.start ≥ e then tail
      else
        let text := pyStrip entry.text
        if text = "" then tail
        else (text :: tail.1, idx :: tail.2)

/-- Models `_collect_text_in_window` (`segment.py`, lines 33-48). -/
def _collect_text_in_window (entries : List Entry) (start e : ℚ) :
    String × List Nat :=
  let r := collectGo start e 0 entries
  (pyStrip (joinSpace r.1), r.2)

/-- Characters the regex class `[A-Za-z0-9_.-]` of `_safe_track_key` keeps. -/
def isSafeChar (c : Char) : Bool :=
  (('A' ≤ c && c ≤ 'Z') || ('a' ≤ c && c ≤ 'z') || ('0' ≤ c && c ≤ '9')
    || c = '_' || c = '.' || c = '-')

/-- `re.sub(r"[^A-Za-z0-9_.-]+", "_", ·)`: each maximal run of disallowed
    characters becomes one underscore.  The flag records whether the previous
    character belonged to such a run (so its replacement was already emitted). -/
def collapseGo : Bool → List Char → List Char
  | _, [] => []
  | inRun, c :: rest =>
      if isSafeChar c then c :: collapseGo false rest
      else if inRun then collapseGo true rest
      else '_' :: collapseGo true rest

def collapseUnsafe (l : List Char) : List Char :=
  collapseGo false l

/-- Python `str.strip("_")`. -/
def stripUnderscores (l : List Char) : List Char :=
  ((l.dropWhile (· = '_')).reverse.dropWhile (· = '_')).reverse

/-- Models `_safe_track_key` (`segment.py`, lines 11-13). -/
def _safe_track_key (value : String) : String :=
  let key : String := ⟨stripUnderscores (collapseUnsafe (stripChars value.data))⟩
  if key = "" then "track" else key

/-- Metadata kept per collected track. -/
structure TrackMeta where
  path : String
  language_code : Option String
  is_generated : Option Bool
deriving DecidableEq, Repr

/-- The `while unique_key in tracks` loop of `add_track`: find the first
    counter from `c` upward whose suffixed key is unused.  `fuel` bounds the
    structural recursion; callers pass more candidates than there are taken
    keys, so the fuel never actually runs out. -/
def freshKeyGo (taken : List String) (base : String) : Nat → Nat → String
  | 0, c => base ++ "_" ++ toString c
  | fuel + 1, c =>
      let cand := base ++ "_" ++ toString c
      if taken.contains cand then freshKeyGo taken base fuel (c + 1) else cand

/-- The abstract filesystem and subprocess environment a call runs against:
    which paths exist, the decoded JSON content of each transcript file, and
    whether the external `ffmpeg` cut to a given output path exits nonzero. -/
structure World where
  files : List String
  content : String → Json
  ffmpegFails : String → Bool

/-- Python `Path(p).exists()`. -/
def World.pathExists (w : World) (p : String) : Bool :=
  w.files.contains p

/-- The nested `add_track` helper of `_collect_transcript_tracks`
    (`segment.py`, lines 101-116); tracks are an insertion-ordered
    association list, as a Python dict is. -/
def addTrack (w : World) (tracks : List (String × TrackMeta)) (key : String)
    (path : Option String) (language_code : Option String)
    (is_generated : Option Bool) : List (String × TrackMeta) :=
  match path with
  | none => tracks
  | some p =>
      if p = "" then tracks
      else if !w.pathExists p then tracks
      else
        let safe := _safe_track_key key
        let taken := tracks.map Prod.fst
        let unique_key :=
          if taken.contains safe then freshKeyGo taken safe (taken.length + 1) 2
          else safe
        tracks ++ [(unique_key, { path := p, language_code := language_code,
                                  is_generated := is_generated })]

/-- One candidate of the `available` list of the transcript summary.  The
    fields carry the types the producing code (`caption.py`) supplies. -/
structure AvailableTrack where
  language_code : Option String
  is_generated : Bool
  path : Option String
deriving Repr

/-- The transcript summary handed to the segmentation engine, with the fields
    `_collect_transcript_tracks` reads. -/
structure TranscriptSummary where
  default_path : Option String
  auto_language_path : Option String
  auto_language_code : Option String
  available : List AvailableTrack
deriving Repr

/-- Python `transcript_summary.get("auto_language_code") or "unknown"`
    (Python falsy-`or`: `None` and `""` both fall back). -/
def orUnknown : Option String → String
  | none => "unknown"
  | some s => if s = "" then "unknown" else s

/-- Models `_collect_transcript_tracks` (`segment.py`, lines 98-138). -/
def _collect_transcript_tracks (w : World) (ts : TranscriptSummary) :
    List (String × TrackMeta) :=
  let t0 := addTrack w [] "default" ts.default_path none none
  let t1 := addTrack w t0 ("auto_target_" ++ orUnknown ts.auto_language_code)
      ts.auto_language_path ts.auto_language_code (some true)
  ts.available.foldl
    (fun acc item =>
      let code := item.language_code.getD "unknown"
      let kind := if item.is_generated then "auto" else "manual"
      addTrack w acc (kind ++ "_" ++ code) item.path (some code)
        (some item.is_generated))
    t1

/-- One row of `index.jsonl`. -/
structure IndexRow where
  segment_id : String
  start : ℚ
  duration : ℚ
  endTime : ℚ
  base_track : String
  audio_path : String
  transcripts_path : String
  base_text : String
deriving DecidableEq, Repr

/-- The per-track part of a segment's transcript bundle. -/
structure TrackBundle where
  text : String
  entry_indices : List Nat
  language_code : Option String
  is_generated : Option Bool
deriving DecidableEq, Repr

/-- The `timing` part of a segment's transcript bundle. -/
structure Timing where
  start : ℚ
  duration : ℚ
  endTime : ℚ
  base_track : String
  base_entry_index : ℕ
deriving DecidableEq, Repr

/-- The multi-track transcript bundle written to `transcripts.json`. -/
structure Bundle where
  segment_id : String
  timing : Timing
  tracks : List (String × TrackBundle)
deriving DecidableEq, Repr

/-- One element of `prepared_segments`. -/
structure PlanItem where
  start : ℚ
  duration : ℚ
  audio_path : String
  transcript_bundle_path : String
  bundle : Bundle
  row : IndexRow
deriving DecidableEq, Repr

/-- A raised Python exception. -/
inductive PyErr where
  | valueError (msg : String) : PyErr
  | calledProcessError (output_path : String) : PyErr
  | typeError (msg : String) : PyErr
deriving DecidableEq, Repr

/-- The summary dict returned by `create_transcript_aligned_segments`. -/
structure Summary where
  segment_count : ℕ
  skipped_count : ℕ
  base_track : Option String
  index_path : Option String
  segments_dir : String
  error : Option String
deriving DecidableEq, Repr

/-- Observable side effects, in the order the sequential code performs them. -/
inductive Effect where
  | mkdir (path : String) : Effect
  | readTranscript (path : String) : Effect
  | ffmpegCut (source output : String) (start duration : ℚ) : Effect
  | writeBundle (path : String) : Effect
  | writeIndex (path : String) (rows : List IndexRow) : Effect
deriving DecidableEq, Repr

/-- The keyword arguments of `create_transcript_aligned_segments`, with the
    source's defaults. -/
structure Args where
  source_audio_path : String
  transcript_summary : TranscriptSummary
  output_root : String
  overwrite : Bool := false
  min_duration : ℚ := 1/4
  min_chars : ℤ := 1
  segment_audio_format : String := "mp3"
  segment_audio_bitrate : String := "128k"
  workers : ℤ := 1
  ffmpeg_bin : String := "ffmpeg"
deriving Repr

/-- Python `f"{n:06d}"`: decimal digits left-padded with zeros to width six. -/
def pad6 (n : ℕ) : String :=
  let s := toString n
  ⟨List.replicate (6 - s.length) '0'⟩ ++ s

/-- Python `Path(p).parent` for the slash-joined paths this pipeline builds. -/
def parentDir (p : String) : String :=
  String.intercalate "/" ((p.splitOn "/").dropLast)

/-- The dict comprehension `{k: _load_entries(t["path"]) for ...}`
    (`segment.py`, line 181): read each collected track file in insertion
    order; a conversion failure inside `_load_entries` raises, so later
    files are not read. -/
def loadTracks (w : World) :
    List (String × TrackMeta) → List Effect × Except PyErr (List (String × List Entry))
  | [] => ([], .ok [])
  | (k, meta) :: rest =>
      match _load_entries (w.content meta.path) with
      | none => ([.readTranscript meta.path], .error (.typeError "float() conversion failed"))
      | some es =>
          let r := loadTracks w rest
          (.readTranscript meta.path :: r.1, r.2.map ((k, es) :: ·))

/-- Python `"default" if "default" in entries_by_track else next(iter(...))`
    (`segment.py`, line 183). -/
def baseTrackKey (ebt : List (String × List Entry)) : String :=
  if (ebt.lookup "default").isSome then "default"
  else ((ebt.head?.map Prod.fst).getD "default")

/-- The keep/drop test of the planning loop (`segment.py`, line 196),
    on the stripped text:  drop iff
    `duration < min_duration or len(text) < min_chars`. -/
def keepEntry (min_duration : ℚ) (min_chars : ℤ) (text : String) (duration : ℚ) : Bool :=
  !(duration < min_duration || (text.length : ℤ) < min_chars)

/-- The planning loop of `create_transcript_aligned_segments`
    (`segment.py`, lines 189-247), carrying `base_entry_index` and
    `kept_index`; returns `(prepared_segments, skipped_count)`. -/
def planGo (a : Args) (tracks : List (String × TrackMeta))
    (ebt : List (String × List Entry)) (base_track : String) :
    ℕ → ℕ → List Entry → List PlanItem × ℕ
  | _, _, [] => ([], 0)
  | base_entry_index, kept_index, entry :: rest =>
      let text := pyStrip entry.text
      let start := max 0 entry.start
      let duration := entry.duration
      if !keepEntry a.min_duration a.min_chars text duration then
        let r := planGo a tracks ebt base_track (base_entry_index + 1) kept_index rest
        (r.1, r.2 + 1)
      else
        let segment_id := pad6 kept_index
        let endTime := start + duration
        let segment_dir := a.output_root ++ "/" ++ segment_id
        let audio_path := segment_dir ++ "/audio." ++ a.segment_audio_format
        let transcript_bundle_path := segment_dir ++ "/transcripts.json"
        let tracks_bundle : List (String × TrackBundle) := ebt.map fun kv =>
          let r := _collect_text_in_window kv.2 start endTime
          let meta := (tracks.lookup kv.1).getD ⟨"", none, none⟩
          (kv.1, { text := r.1, entry_indices := r.2,
                   language_code := meta.language_code,
                   is_generated := meta.is_generated })
        let item : PlanItem :=
          { start := start, duration := duration, audio_path := audio_path,
            transcript_bundle_path := transcript_bundle_path,
            bundle :=
              { segment_id := segment_id,
                timing := { start := start, duration := duration, endTime := endTime,
                            base_track := base_track,
                            base_entry_index := base_entry_index },
                tracks := tracks_bundle },
            row :=
              { segment_id := segment_id, start := start, duration := duration,
                endTime := endTime, base_track := base_track,
                audio_path := audio_path,
                transcripts_path := transcript_bundle_path,
                base_text := text } }
        let r := planGo a tracks ebt base_track (base_entry_index + 1) (kept_index + 1) rest
        (item :: r.1, r.2)

/-- The full planning stage over the base track's entries. -/
def planSegments (a : Args) (tracks : List (String × TrackMeta))
    (ebt : List (String × List Entry)) (base_track : String) :
    List PlanItem × ℕ :=
  planGo a tracks ebt base_track 0 0 ((ebt.lookup base_track).getD [])

/-- The nested `materialize_segment` closure (`segment.py`, lines 249-263):
    cut the audio unless it already exists and `overwrite` is false, then
    unconditionally write the transcript bundle.  A nonzero `ffmpeg` exit is
    a raised `CalledProcessError`. -/
def materialize_segment (w : World) (a : Args) (item : PlanItem) :
    List Effect × Option PyErr :=
  if a.overwrite || !w.pathExists item.audio_path then
    let cutEffs : List Effect :=
      [.mkdir (parentDir item.audio_path),
       .ffmpegCut a.source_audio_path item.audio_path item.start item.duration]
    if w.ffmpegFails item.audio_path then
      (cutEffs, some (.calledProcessError item.audio_path))
    else
      (cutEffs ++ [.mkdir (parentDir item.transcript_bundle_path),
                   .writeBundle item.transcript_bundle_path], none)
  else
    ([.mkdir (parentDir item.transcript_bundle_path),
      .writeBundle item.transcript_bundle_path], none)

/-- The `workers == 1` path (`segment.py`, lines 265-267): materialize the
    plan in order; the first raised exception aborts the loop. -/
def materializeSeq (w : World) (a : Args) :
    List PlanItem → List Effect × Option PyErr
  | [] => ([], none)
  | item :: rest =>
      let r := materialize_segment w a item
      match r.2 with
      | some e => (r.1, some e)
      | none =>
          let rr := materializeSeq w a rest
          (r.1 ++ rr.1, rr.2)

/-- The `workers > 1` thread-pool path (`segment.py`, lines 269-272): every
    submitted task runs to completion (the executor's shutdown waits for
    them), effects are recorded in submission order (thread interleaving is
    not modelled; no claim depends on it), and if any task raised, the
    exception re-raised by `future.result()` propagates. -/
def materializePar (w : World) (a : Args) (items : List PlanItem) :
    List Effect × Option PyErr :=
  let results := items.map (materialize_segment w a)
  (results.flatMap Prod.fst, results.findSome? Prod.snd)

/-- Models `create_transcript_aligned_segments` (`segment.py`, lines 148-284),
    as a function from the environment and arguments to the effect trace and
    either the raised exception or the returned summary. -/
def create_transcript_aligned_segments (w : World) (a : Args) :
    List Effect × Except PyErr Summary :=
  let tracks := _collect_transcript_tracks w a.transcript_summary
  if tracks.isEmpty then
    ([], .ok { segment_count := 0, skipped_count := 0, base_track := none,
               index_path := none, segments_dir := a.output_root,
               error := some "No transcript files available for segmentation." })
  else
    let loadR := loadTracks w tracks
    let effs0 := Effect.mkdir a.output_root :: loadR.1
    match loadR.2 with
    | .error e => (effs0, .error e)
    | .ok ebt =>
        let base_track := baseTrackKey ebt
        if a.workers < 1 then
          (effs0, .error (.valueError "workers must be >= 1"))
        else
          let plan := planSegments a tracks ebt base_track
          let matR :=
            if a.workers = 1 then materializeSeq w a plan.1
            else materializePar w a plan.1
          match matR.2 with
          | some e => (effs0 ++ matR.1, .error e)
          | none =>
              let index_path := a.output_root ++ "/index.jsonl"
              let rows := plan.1.map (·.row)
              (effs0 ++ matR.1 ++ [.mkdir a.output_root, .writeIndex index_path rows],
               .ok { segment_count := rows.length, skipped_count := plan.2,
                     base_track := some base_track,
                     index_path := some index_path,
                     segments_dir := a.output_root, error := none })

/-- The plan a call computes (empty when loading raises first); an accessor
    used to state theorems about the full call. -/
def planOf (w : World) (a : Args) : List PlanItem :=
  let tracks := _collect_transcript_tracks w a.transcript_summary
  match (loadTracks w tracks).2 with
  | .error _ => []
  | .ok ebt => (planSegments a tracks ebt (baseTrackKey ebt)).1

/-- The loaded entries of the base track a call selects (empty when loading
    raises first); an accessor used to state theorems about the full call. -/
def baseTrackEntries (w : World) (a : Args) : List Entry :=
  let tracks := _collect_transcript_tracks w a.transcript_summary
  match (loadTracks w tracks).2 with
  | .error _ => []
  | .ok ebt => (ebt.lookup (baseTrackKey ebt)).getD []

/-- Whether a trace contains an index-manifest write. -/
def hasWriteIndex (effs : List Effect) : Bool :=
  effs.any fun e => match e with
    | .writeIndex _ _ => true
    | _ => false

/-! ### Specification-side definitions

These restate what the claims say in their own words, to be compared with
the definitions above, which are translated from the source. -/

def Json.isArr : Json → Bool
  | .arr _ => true
  | _ => false

def Json.isObj : Json → Bool
  | .obj _ => true
  | _ => false

/-- The claims' open-interval overlap test:
    `entry_end > start AND entry_start < end`. -/
def overlapsWindow (s e : ℚ) (en : Entry) : Bool :=
  decide (s < en.start + en.duration) && decide (en.start < e)

/-- Claim C1 exactly as written: the indices of ALL entries overlapping the
    window, in encounter order. -/
def claimIndices (entries : List Entry) (s e : ℚ) : List ℕ :=
  (entries.enum.filter fun p => overlapsWindow s e p.2).map Prod.fst

/-- What the code actually matches: the entry overlaps AND its stripped text
    is non-empty. -/
def matchedB (s e : ℚ) (en : Entry) : Bool :=
  overlapsWindow s e en && decide (pyStrip en.text ≠ "")

def matchedEntries (entries : List Entry) (s e : ℚ) : List Entry :=
  entries.filter (matchedB s e)

def matchedTexts (entries : List Entry) (s e : ℚ) : List String :=
  (matchedEntries entries s e).map fun en => pyStrip en.text

def matchedIndices (entries : List Entry) (s e : ℚ) : List ℕ :=
  (entries.enum.filter fun p => matchedB s e p.2).map Prod.fst

/-! ### The window collector, characterized -/

theorem collectGo_eq (s e : ℚ) :
    ∀ (entries : List Entry) (i : ℕ),
      collectGo s e i entries
        = (matchedTexts entries s e,
           ((entries.enumFrom i).filter fun p => matchedB s e p.2).map Prod.fst)
  | [], _ => rfl
  | en :: rest, i => by
      have ih := collectGo_eq s e rest (i + 1)
      by_cases h1 : en.start + en.duration ≤ s ∨ en.start ≥ e
      · have hm : matchedB s e en = false := by
          have : overlapsWindow s e en = false := by
            rcases h1 with h | h
            · simp [overlapsWindow, not_lt.mpr h]
            · simp [overlapsWindow, not_lt.mpr h]
          simp [matchedB, this]
        simp [collectGo, h1, ih, matchedTexts, matchedEntries, matchedIndices,
          List.filter_cons, hm]
      · have hov : overlapsWindow s e en = true := by
          push_neg at h1
          simp [overlapsWindow, h1.1, h1.2]
        by_cases h2 : pyStrip en.text = ""
        · have hm : matchedB s e en = false := by simp [matchedB, h2]
          simp [collectGo, h1, h2, ih, matchedTexts, matchedEntries,
            matchedIndices, List.filter_cons, hm]
        · have hm : matchedB s e en = true := by simp [matchedB, hov, h2]
          simp [collectGo, h1, h2, ih, matchedTexts, matchedEntries,
            matchedIndices, List.filter_cons, hm]

theorem collect_text_in_window_eq (entries : List Entry) (s e : ℚ) :
    _collect_text_in_window entries s e
      = (pyStrip (joinSpace (matchedTexts entries s e)), matchedIndices entries s e) := by
  simp [_collect_text_in_window, collectGo_eq s e entries 0, matchedIndices, List.enum]

/-! ### Stripping lemmas -/

theorem head?_dropWhile_not {p : Char → Bool} :
    ∀ (l : List Char) {c : Char}, (l.dropWhile p).head? = some c → p c = false := by
  intro l
  induction l with
  | nil => intro c h; simp at h
  | cons a t ih =>
      intro c h
      by_cases hp : p a
      · rw [List.dropWhile_cons_of_pos hp] at h
        exact ih h
      · rw [List.dropWhile_cons_of_neg hp] at h
        simp only [List.head?_cons, Option.some.injEq] at h
        subst h
        simpa using hp

theorem getLast?_of_dropWhile {p : Char → Bool} (l : List Char) {c : Char}
    (h : (l.dropWhile p).getLast? = some c) : l.getLast? = some c := by
  obtain ⟨t, ht⟩ := List.dropWhile_suffix (l := l) p
  rw [← ht, List.getLast?_append, h]
  rfl

theorem stripChars_head {l : List Char} {c : Char}
    (h : (stripChars l).head? = some c) : isWs c = false := by
  unfold stripChars at h
  rw [List.head?_reverse] at h
  have h2 := getLast?_of_dropWhile _ h
  rw [List.getLast?_reverse] at h2
  exact head?_dropWhile_not _ h2

theorem stripChars_getLast {l : List Char} {c : Char}
    (h : (stripChars l).getLast? = some c) : isWs c = false := by
  unfold stripChars at h
  rw [List.getLast?_reverse] at h
  exact head?_dropWhile_not _ h

theorem stripChars_eq_self {l : List Char}
    (h1 : ∀ c, l.head? = some c → isWs c = false)
    (h2 : ∀ c, l.getLast? = some c → isWs c = false) :
    stripChars l = l := by
  have hA : l.dropWhile isWs = l := by
    cases l with
    | nil => rfl
    | cons a t => rw [List.dropWhile_cons_of_neg (by simp [h1 a rfl])]
  unfold stripChars
  rw [hA]
  have hB : l.reverse.dropWhile isWs = l.reverse := by
    cases hr : l.reverse with
    | nil => rfl
    | cons a t =>
        have ha : l.getLast? = some a := by
          rw [← List.head?_reverse, hr]; rfl
        rw [List.dropWhile_cons_of_neg (by simp [h2 a ha])]
  rw [hB, List.reverse_reverse]

theorem stripChars_idem (l : List Char) : stripChars (stripChars l) = stripChars l :=
  stripChars_eq_self (fun _ h => stripChars_head h) (fun _ h => stripChars_getLast h)

theorem pyStrip_idem (s : String) : pyStrip (pyStrip s) = pyStrip s :=
  String.ext (stripChars_idem s.data)

theorem data_ne_nil_of_ne_empty {s : String} (h : s ≠ "") : s.data ≠ [] := by
  intro hd
  exact h (String.ext hd)

theorem head?_data_joinSpace :
    ∀ (t : String) (ts : List String), t ≠ "" →
      (joinSpace (t :: ts)).data.head? = t.data.head?
  | _, [], _ => rfl
  | t, t' :: ts, h => by
      show ((t ++ " ") ++ joinSpace (t' :: ts)).data.head? = t.data.head?
      rw [String.data_append, String.data_append, List.head?_append,
        List.head?_append]
      cases hd : t.data with
      | nil => exact absurd hd (data_ne_nil_of_ne_empty h)
      | cons a u => rfl

theorem getLast?_data_joinSpace :
    ∀ (t : String) (ts : List String) (tl : String),
      (t :: ts).getLast? = some tl → (∀ u ∈ t :: ts, u ≠ "") →
      (joinSpace (t :: ts)).data.getLast? = tl.data.getLast?
  | t, [], tl => by
      intro h _
      simp only [List.getLast?_singleton, Option.some.injEq] at h
      subst h
      rfl
  | t, t' :: ts, tl => by
      intro h hne
      have hlast : (t' :: ts).getLast? = some tl := by
        rw [← h]
        rfl
      have ih := getLast?_data_joinSpace t' ts tl hlast (fun u hu => hne u (by simp [hu]))
      have ht' : t' ≠ "" := hne t' (by simp)
      have hne' : (joinSpace (t' :: ts)).data ≠ [] := by
        intro hnil
        have hh := head?_data_joinSpace t' ts ht'
        rw [hnil] at hh
        cases hd : t'.data with
        | nil => exact data_ne_nil_of_ne_empty ht' hd
        | cons a u => rw [hd] at hh; simp at hh
      have hsome : ((joinSpace (t' :: ts)).data.getLast?).isSome := by
        rw [List.getLast?_isSome]
        exact hne'
      obtain ⟨c, hc⟩ := Option.isSome_iff_exists.mp hsome
      show ((t ++ " ") ++ joinSpace (t' :: ts)).data.getLast? = tl.data.getLast?
      rw [String.data_append, List.getLast?_append, hc, ← ih, hc]
      rfl

theorem pyStrip_joinSpace (ts : List String)
    (h : ∀ t ∈ ts, pyStrip t = t ∧ t ≠ "") :
    pyStrip (joinSpace ts) = joinSpace ts := by
  cases ts with
  | nil => rfl
  | cons t rest =>
      apply String.ext
      show stripChars (joinSpace (t :: rest)).data = (joinSpace (t :: rest)).data
      apply stripChars_eq_self
      · intro c hc
        have ht := h t (by simp)
        rw [head?_data_joinSpace t rest ht.2] at hc
        have hd : stripChars t.data = t.data := congrArg String.data ht.1
        rw [← hd] at hc
        exact stripChars_head hc
      · intro c hc
        have hsome : ((t :: rest).getLast?).isSome := by
          rw [List.getLast?_isSome]
          simp
        obtain ⟨tl, htl⟩ := Option.isSome_iff_exists.mp hsome
        have h2 := h tl (List.mem_of_getLast?_eq_some htl)
        rw [getLast?_data_joinSpace t rest tl htl (fun u hu => (h u hu).2)] at hc
        have hd : stripChars tl.data = tl.data := congrArg String.data h2.1
        rw [← hd] at hc
        exact stripChars_getLast hc

theorem joinSpace_ne_empty (t : String) (rest : List String) (h : t ≠ "") :
    joinSpace (t :: rest) ≠ "" := by
  intro he
  have hh := head?_data_joinSpace t rest h
  rw [he] at hh
  cases hd : t.data with
  | nil => exact data_ne_nil_of_ne_empty h hd
  | cons a u => rw [hd] at hh; simp at hh

theorem matchedTexts_stripped (entries : List Entry) (s e : ℚ) :
    ∀ t ∈ matchedTexts entries s e, pyStrip t = t ∧ t ≠ "" := by
  intro t ht
  simp only [matchedTexts, matchedEntries, List.mem_map, List.mem_filter] at ht
  obtain ⟨en, ⟨_, hm⟩, rfl⟩ := ht
  refine ⟨pyStrip_idem en.text, ?_⟩
  simp only [matchedB, Bool.and_eq_true, decide_eq_true_eq] at hm
  exact hm.2

theorem length_filter_enumFrom {α : Type} (q : α → Bool) :
    ∀ (l : List α) (i : ℕ),
      ((l.enumFrom i).filter fun p => q p.2).length = (l.filter q).length
  | [], _ => rfl
  | x :: rest, i => by
      by_cases hq : q x <;>
        simp [List.enumFrom_cons, List.filter_cons, hq,
          length_filter_enumFrom q rest (i + 1)]

theorem matchedIndices_eq_nil_iff (entries : List Entry) (s e : ℚ) :
    matchedIndices entries s e = [] ↔ matchedEntries entries s e = [] := by
  rw [← List.length_eq_zero (l := matchedIndices entries s e),
    ← List.length_eq_zero (l := matchedEntries entries s e)]
  simp only [matchedIndices, matchedEntries, List.length_map, List.enum]
  rw [length_filter_enumFrom]

/-! ### Claim C1 -/

/-- C1, counterexample: for the single-entry track `[{text: "", start: 2,
    duration: 1}]` and the window `[2, 3)`, the entry overlaps the window, so
    the claim as written puts index 0 into `entry_indices`; the code returns
    no indices, because it also drops entries whose stripped text is empty. -/
theorem C1_counterexample :
    claimIndices [⟨"", 2, 1⟩] 2 3 = [0]
      ∧ (_collect_text_in_window [⟨"", 2, 1⟩] 2 3).2 = [] := by
  with_unfolding_all decide

/-- C1 (amended): for every track and segment window, the bundle's
    `entry_indices` is the list of indices, in encounter order, of the
    entries that overlap `[start, end)` under the open-interval test
    `entry_end > start AND entry_start < end` AND whose stripped text is
    non-empty, and the bundle's text is their stripped texts joined by
    single spaces; in particular an entry with interval `[1.5, 2.5)`
    overlaps a segment `[2.0, 3.0)` while an entry with interval
    `[3.0, 3.5)` does not. -/
theorem C1_bundle_overlap (entries : List Entry) (s e : ℚ) :
    (_collect_text_in_window entries s e).2 = matchedIndices entries s e
  ∧ (_collect_text_in_window entries s e).1 = joinSpace (matchedTexts entries s e)
  ∧ overlapsWindow 2 3 ⟨"other", 3/2, 1⟩ = true
  ∧ overlapsWindow 2 3 ⟨"touches", 3, 1/2⟩ = false := by
  refine ⟨?_, ?_, by with_unfolding_all decide, by with_unfolding_all decide⟩
  · rw [collect_text_in_window_eq]
  · rw [collect_text_in_window_eq]
    exact pyStrip_joinSpace _ (matchedTexts_stripped entries s e)

/-! ### Claim C10 -/

/-- C10: in every per-track bundle, the text is empty iff `entry_indices` is
    empty; the text is its own stripped form (no leading or trailing
    whitespace); and the text is exactly the single-space join of the
    stripped non-empty texts of the matched entries (so the join itself
    introduces no double spaces). -/
theorem C10_bundle_invariant (entries : List Entry) (s e : ℚ) :
    ((_collect_text_in_window entries s e).1 = ""
        ↔ (_collect_text_in_window entries s e).2 = [])
  ∧ pyStrip (_collect_text_in_window entries s e).1
      = (_collect_text_in_window entries s e).1
  ∧ (_collect_text_in_window entries s e).1 = joinSpace (matchedTexts entries s e) := by
  have hstr := matchedTexts_stripped entries s e
  have htext : (_collect_text_in_window entries s e).1
      = joinSpace (matchedTexts entries s e) := by
    rw [collect_text_in_window_eq]
    exact pyStrip_joinSpace _ hstr
  refine ⟨?_, ?_, htext⟩
  · rw [htext, collect_text_in_window_eq]
    rw [matchedIndices_eq_nil_iff]
    constructor
    · intro hjoin
      cases hM : matchedTexts entries s e with
      | nil =>
          simpa [matchedTexts, List.map_eq_nil_iff] using hM
      | cons t rest =>
          rw [hM] at hjoin
          have ht : t ≠ "" := (hstr t (by rw [hM]; simp)).2
          exact absurd hjoin (joinSpace_ne_empty t rest ht)
    · intro hE
      simp [matchedTexts, hE, joinSpace]
  · rw [htext]
    exact pyStrip_joinSpace _ hstr

/-! ### The planner, characterized -/

theorem planGo_spec (a : Args) (tracks : List (String × TrackMeta))
    (ebt : List (String × List Entry)) (bt : String) :
    ∀ (es : List Entry) (bi k : ℕ),
      ((planGo a tracks ebt bt bi k es).1.map (·.bundle.timing.base_entry_index)
          = ((es.enumFrom bi).filter fun p =>
              keepEntry a.min_duration a.min_chars (pyStrip p.2.text) p.2.duration).map Prod.fst)
    ∧ ((planGo a tracks ebt bt bi k es).1.map (·.row.segment_id)
          = (List.range' k (planGo a tracks ebt bt bi k es).1.length).map pad6)
    ∧ ((planGo a tracks ebt bt bi k es).1.length + (planGo a tracks ebt bt bi k es).2
          = es.length)
    ∧ ((planGo a tracks ebt bt bi k es).2
          = (es.filter fun en =>
              !keepEntry a.min_duration a.min_chars (pyStrip en.text) en.duration).length)
  | [], bi, k => by simp [planGo]
  | en :: rest, bi, k => by
      cases hkeep : keepEntry a.min_duration a.min_chars (pyStrip en.text) en.duration with
      | false =>
          have ih := planGo_spec a tracks ebt bt rest (bi + 1) k
          refine ⟨?_, ?_, ?_, ?_⟩
          · simp only [planGo, hkeep, Bool.not_false, if_true, List.enumFrom_cons,
              List.filter_cons, Bool.false_eq_true, if_false]
            exact ih.1
          · simp only [planGo, hkeep, Bool.not_false, if_true]
            exact ih.2.1
          · simp only [planGo, hkeep, Bool.not_false, if_true, List.length_cons]
            have h3 := ih.2.2.1
            omega
          · simp only [planGo, hkeep, Bool.not_false, if_true, List.filter_cons,
              List.length_cons]
            have h4 := ih.2.2.2
            omega
      | true =>
          have ih := planGo_spec a tracks ebt bt rest (bi + 1) (k + 1)
          refine ⟨?_, ?_, ?_, ?_⟩
          · simp only [planGo, hkeep, Bool.not_true, if_false, List.map_cons,
              List.enumFrom_cons, List.filter_cons, if_true]
            exact congrArg (bi :: ·) ih.1
          · simp only [planGo, hkeep, Bool.not_true, if_false, List.map_cons,
              List.length_cons, List.range'_succ]
            exact congrArg (pad6 k :: ·) ih.2.1
          · simp only [planGo, hkeep, Bool.not_true, Bool.false_eq_true, if_false,
              List.length_cons]
            have h3 := ih.2.2.1
            omega
          · simp only [planGo, hkeep, Bool.not_true, if_false, List.filter_cons,
              Bool.not_true, Bool.false_eq_true]
            exact ih.2.2.2

/-! ### Claim C2 -/

/-- C2: the segment IDs of the plan entries are exactly the zero-padded
    (to six digits) integers `0 .. segment_count - 1`, dense with no gaps,
    assigned in the order the kept base-track entries appear, regardless of
    which entries the filter dropped. -/
theorem C2_dense_segment_ids (a : Args) (tracks : List (String × TrackMeta))
    (ebt : List (String × List Entry)) (bt : String) :
    ((planSegments a tracks ebt bt).1.map (·.row.segment_id))
        = (List.range (planSegments a tracks ebt bt).1.length).map pad6
  ∧ pad6 0 = "000000" ∧ pad6 1 = "000001" ∧ pad6 123456 = "123456" := by
  refine ⟨?_, by with_unfolding_all decide, by with_unfolding_all decide,
    by with_unfolding_all decide⟩
  rw [List.range_eq_range']
  exact (planGo_spec a tracks ebt bt ((ebt.lookup bt).getD []) 0 0).2.1

/-! ### Claim C4 -/

/-- C4: the planner drops a base-track entry (no ID, no plan entry, one
    increment of `skipped_count`) iff `duration < min_duration` or the
    stripped text is shorter than `min_chars`; the kept entries, in order,
    are exactly those passing the filter; e.g. duration 0.1 with
    `min_duration = 0.25` is dropped, and empty text with `min_chars = 1`
    is dropped. -/
theorem C4_keep_drop_filter (a : Args) (tracks : List (String × TrackMeta))
    (ebt : List (String × List Entry)) (bt : String) :
    ((planSegments a tracks ebt bt).1.map (·.bundle.timing.base_entry_index)
        = ((((ebt.lookup bt).getD []).enum.filter fun p =>
            keepEntry a.min_duration a.min_chars (pyStrip p.2.text) p.2.duration).map
            Prod.fst))
  ∧ ((planSegments a tracks ebt bt).2
        = (((ebt.lookup bt).getD []).filter fun en =>
            !keepEntry a.min_duration a.min_chars (pyStrip en.text) en.duration).length)
  ∧ (∀ en : Entry,
        keepEntry a.min_duration a.min_chars (pyStrip en.text) en.duration = false
          ↔ (en.duration < a.min_duration ∨ ((pyStrip en.text).length : ℤ) < a.min_chars))
  ∧ keepEntry (1/4) 1 (pyStrip "hi") (1/10) = false
  ∧ keepEntry (1/4) 1 (pyStrip "") 1 = false := by
  refine ⟨?_, ?_, ?_, by with_unfolding_all decide, by with_unfolding_all decide⟩
  · exact (planGo_spec a tracks ebt bt ((ebt.lookup bt).getD []) 0 0).1
  · exact (planGo_spec a tracks ebt bt ((ebt.lookup bt).getD []) 0 0).2.2.2
  · intro en
    constructor
    · intro hf
      by_contra hn
      push_neg at hn
      have h1 : ¬(en.duration < a.min_duration) := not_lt.mpr hn.1
      have h2 : ¬(((pyStrip en.text).length : ℤ) < a.min_chars) := not_lt.mpr hn.2
      simp [keepEntry, h1, h2] at hf
    · intro hor
      rcases hor with hd | hc
      · simp [keepEntry, hd]
      · simp [keepEntry, hc]

/-! ### Claim C3 -/

/-- C3: whenever the call returns a summary with no error, the summary
    satisfies `segment_count + skipped_count = number of base-track
    entries`: every base-track entry is either kept as exactly one plan
    entry or counted once as skipped. -/
theorem C3_segment_plus_skipped (w : World) (a : Args) (s : Summary)
    (h : (create_transcript_aligned_segments w a).2 = Except.ok s)
    (he : s.error = none) :
    s.segment_count + s.skipped_count = (baseTrackEntries w a).length := by
  simp only [create_transcript_aligned_segments] at h
  split at h
  · simp only [Except.ok.injEq] at h
    subst h
    simp at he
  · split at h
    · exact absurd h (by simp)
    · next ebt heq =>
      split at h
      · exact absurd h (by simp)
      · split at h
        · exact absurd h (by simp)
        · simp only [Except.ok.injEq] at h
          subst h
          simp only [baseTrackEntries, heq, List.length_map]
          exact (planGo_spec a (_collect_transcript_tracks w a.transcript_summary)
            ebt (baseTrackKey ebt) ((ebt.lookup (baseTrackKey ebt)).getD []) 0 0).2.2.1

/-- A two-entry default track: the first entry is kept, the second dropped
    (duration 0.1 < 0.25). -/
def c3Doc : Json := .arr
  [ .obj [("text", .str "hello world"), ("start", .num 0), ("duration", .num 1)],
    .obj [("text", .str "x"), ("start", .num 1), ("duration", .num (1/10))] ]

def c3World : World :=
  { files := ["t.json"], content := fun _ => c3Doc, ffmpegFails := fun _ => false }

def c3Args : Args :=
  { source_audio_path := "a.wav",
    transcript_summary :=
      { default_path := some "t.json", auto_language_path := none,
        auto_language_code := none, available := [] },
    output_root := "out" }

def c3Result : Summary :=
  { segment_count := 1, skipped_count := 1, base_track := some "default",
    index_path := some "out/index.jsonl", segments_dir := "out", error := none }

/-- Witness for C3: a concrete run with one kept and one dropped entry
    returns `segment_count = 1`, `skipped_count = 1`, and `1 + 1` is the
    number of base-track entries. -/
theorem C3_witness :
    (create_transcript_aligned_segments c3World c3Args).2 = Except.ok c3Result
  ∧ c3Result.segment_count + c3Result.skipped_count
      = (baseTrackEntries c3World c3Args).length :=
  ⟨by with_unfolding_all rfl,
   C3_segment_plus_skipped c3World c3Args c3Result (by with_unfolding_all rfl) rfl⟩

/-! ### Claim C5 -/

theorem loadTracks_effects (w : World) :
    ∀ (ts : List (String × TrackMeta)), ∀ eff ∈ (loadTracks w ts).1,
      ∃ p, eff = Effect.readTranscript p
  | [] => by simp [loadTracks]
  | (k, meta) :: rest => by
      intro eff heff
      simp only [loadTracks] at heff
      split at heff
      · simp only [List.mem_singleton] at heff
        exact ⟨meta.path, heff⟩
      · simp only [List.mem_cons] at heff
        rcases heff with rfl | htail
        · exact ⟨meta.path, rfl⟩
        · exact loadTracks_effects w rest eff htail

def exceptOk {ε α : Type} : Except ε α → Bool
  | .ok _ => true
  | .error _ => false

/-- C5 (amended): with `workers < 1`, at least one usable track and loadable
    track files, the call raises `ValueError("workers must be >= 1")` before
    planning and materialization — no audio is cut and nothing is written —
    but only after creating the output directory and reading the transcript
    files; with no usable tracks, the no-input summary is returned instead
    and no error is raised at all. -/
theorem C5_config_error (w : World) (a : Args)
    (hw : a.workers < 1)
    (ht : (_collect_transcript_tracks w a.transcript_summary).isEmpty = false)
    (hl : exceptOk (loadTracks w (_collect_transcript_tracks w a.transcript_summary)).2
            = true) :
    (create_transcript_aligned_segments w a).2
        = Except.error (.valueError "workers must be >= 1")
  ∧ (create_transcript_aligned_segments w a).1
        = Effect.mkdir a.output_root
            :: (loadTracks w (_collect_transcript_tracks w a.transcript_summary)).1
  ∧ ∀ eff ∈ (create_transcript_aligned_segments w a).1,
      eff = Effect.mkdir a.output_root ∨ ∃ p, eff = Effect.readTranscript p := by
  obtain ⟨ebt, heq⟩ :
      ∃ ebt, (loadTracks w (_collect_transcript_tracks w a.transcript_summary)).2
        = Except.ok ebt := by
    cases hC : (loadTracks w (_collect_transcript_tracks w a.transcript_summary)).2 with
    | ok x => exact ⟨x, rfl⟩
    | error e => rw [hC] at hl; simp [exceptOk] at hl
  simp only [create_transcript_aligned_segments, ht, Bool.false_eq_true, if_false,
    heq, if_pos hw]
  refine ⟨trivial, trivial, ?_⟩
  intro eff heff
  simp only [List.mem_cons] at heff
  rcases heff with rfl | htail
  · exact Or.inl rfl
  · exact Or.inr (loadTracks_effects w _ eff htail)

def c5World : World :=
  { files := ["t.json"], content := fun _ => .arr [], ffmpegFails := fun _ => false }

def c5Args : Args :=
  { source_audio_path := "a.wav",
    transcript_summary :=
      { default_path := some "t.json", auto_language_path := none,
        auto_language_code := none, available := [] },
    output_root := "out", workers := 0 }

/-- C5, counterexample: with `workers = 0` and one usable track, the call
    creates the output directory and reads the transcript file BEFORE
    raising the configuration error — contradicting "fails immediately …
    before performing any I/O … no output directory created, no transcript
    file read". -/
theorem C5_counterexample :
    c5Args.workers < 1
  ∧ create_transcript_aligned_segments c5World c5Args
      = ([Effect.mkdir "out", Effect.readTranscript "t.json"],
         Except.error (.valueError "workers must be >= 1")) :=
  ⟨by with_unfolding_all decide, by with_unfolding_all rfl⟩

/-- Witness for C5 (amended), applying it at a concrete world. -/
theorem C5_witness :
    (create_transcript_aligned_segments c5World c5Args).2
      = Except.error (.valueError "workers must be >= 1") :=
  (C5_config_error c5World c5Args (by with_unfolding_all decide)
    (by with_unfolding_all rfl) (by with_unfolding_all rfl)).1

/-! ### Claim C6 -/

/-- A candidate path is usable when it is set, non-empty (Python falsiness)
    and exists on disk; `add_track` keeps exactly the usable candidates. -/
def usablePath (w : World) : Option String → Bool
  | none => false
  | some p => !(p = "") && w.pathExists p

theorem addTrack_unusable (w : World) (tracks : List (String × TrackMeta))
    (key : String) (path : Option String) (lc : Option String) (ig : Option Bool)
    (h : usablePath w path = false) :
    addTrack w tracks key path lc ig = tracks := by
  cases path with
  | none => rfl
  | some p =>
      by_cases hp : p = ""
      · simp [addTrack, hp]
      · have hex : w.pathExists p = false := by
          simpa [usablePath, hp] using h
        simp [addTrack, hp, hex]

theorem collectTracks_empty (w : World) (ts : TranscriptSummary)
    (h1 : usablePath w ts.default_path = false)
    (h2 : usablePath w ts.auto_language_path = false)
    (h3 : ∀ it ∈ ts.available, usablePath w it.path = false) :
    _collect_transcript_tracks w ts = [] := by
  unfold _collect_transcript_tracks
  dsimp only
  rw [addTrack_unusable w _ _ _ _ _ h1, addTrack_unusable w _ _ _ _ _ h2]
  have hfold : ∀ (items : List AvailableTrack),
      (∀ it ∈ items, usablePath w it.path = false) →
      items.foldl
        (fun acc item =>
          addTrack w acc
            ((if item.is_generated then "auto" else "manual") ++ "_"
              ++ item.language_code.getD "unknown")
            item.path (some (item.language_code.getD "unknown"))
            (some item.is_generated))
        ([] : List (String × TrackMeta)) = [] := by
    intro items
    induction items with
    | nil => intro _; rfl
    | cons it rest ih =>
        intro hall
        simp only [List.foldl_cons]
        rw [addTrack_unusable w _ _ _ _ _ (hall it (by simp))]
        exact ih fun u hu => hall u (by simp [hu])
  exact hfold ts.available h3

/-- C6: when no usable transcript track exists (every candidate path is
    unset, empty, or missing on disk), the call raises nothing and returns
    the structured no-input summary: zero counts, no base track, no index
    path, and a human-readable error string — with an empty effect trace. -/
theorem C6_no_tracks (w : World) (a : Args)
    (h1 : usablePath w a.transcript_summary.default_path = false)
    (h2 : usablePath w a.transcript_summary.auto_language_path = false)
    (h3 : ∀ it ∈ a.transcript_summary.available, usablePath w it.path = false) :
    create_transcript_aligned_segments w a
      = ([], Except.ok
          { segment_count := 0, skipped_count := 0, base_track := none,
            index_path := none, segments_dir := a.output_root,
            error := some "No transcript files available for segmentation." }) := by
  have hempty := collectTracks_empty w a.transcript_summary h1 h2 h3
  simp [create_transcript_aligned_segments, hempty]

def c6World : World :=
  { files := [], content := fun _ => Json.null, ffmpegFails := fun _ => false }

def c6Args : Args :=
  { source_audio_path := "a.wav",
    transcript_summary :=
      { default_path := some "missing.json", auto_language_path := some "",
        auto_language_code := some "en",
        available :=
          [{ language_code := some "en", is_generated := true,
             path := some "also_missing.json" }] },
    output_root := "out" }

/-- Witness for C6: with one nonexistent candidate file, one empty path and
    one nonexistent `available` path, the call returns the no-input
    summary. -/
theorem C6_witness :
    create_transcript_aligned_segments c6World c6Args
      = ([], Except.ok
          { segment_count := 0, skipped_count := 0, base_track := none,
            index_path := none, segments_dir := "out",
            error := some "No transcript files available for segmentation." }) :=
  C6_no_tracks c6World c6Args (by with_unfolding_all decide)
    (by with_unfolding_all decide) (by with_unfolding_all decide)

/-! ### Claim C7 -/

/-- C7 (amended): with `overwrite = false` and the segment's audio file
    already on disk, materialization never re-invokes the external
    audio-cutting tool for that segment (the audio artifact is idempotently
    skipped); the `transcripts.json` bundle, however, is rewritten
    unconditionally — its write is exactly what remains in the effect
    trace. -/
theorem C7_skip_existing_audio (w : World) (a : Args) (item : PlanItem)
    (h1 : a.overwrite = false)
    (h2 : w.pathExists item.audio_path = true) :
    materialize_segment w a item
      = ([Effect.mkdir (parentDir item.transcript_bundle_path),
          Effect.writeBundle item.transcript_bundle_path], none) := by
  simp [materialize_segment, h1, h2]

def c7World : World :=
  { files := ["out/000000/audio.mp3", "out/000000/transcripts.json"],
    content := fun _ => Json.null, ffmpegFails := fun _ => false }

def c7Args : Args :=
  { source_audio_path := "a.wav",
    transcript_summary :=
      { default_path := none, auto_language_path := none,
        auto_language_code := none, available := [] },
    output_root := "out" }

def c7Item : PlanItem :=
  { start := 0, duration := 1,
    audio_path := "out/000000/audio.mp3",
    transcript_bundle_path := "out/000000/transcripts.json",
    bundle :=
      { segment_id := "000000",
        timing := { start := 0, duration := 1, endTime := 1,
                    base_track := "default", base_entry_index := 0 },
        tracks := [] },
    row :=
      { segment_id := "000000", start := 0, duration := 1, endTime := 1,
        base_track := "default", audio_path := "out/000000/audio.mp3",
        transcripts_path := "out/000000/transcripts.json",
        base_text := "hello" } }

/-- C7, counterexample: with `overwrite = false` and BOTH artifacts already
    on disk, re-materializing still writes `transcripts.json` — the claim's
    "an existing transcripts.json bundle file is not rewritten" is false
    (only the audio cut is skipped). -/
theorem C7_counterexample :
    c7Args.overwrite = false
  ∧ c7World.pathExists "out/000000/transcripts.json" = true
  ∧ (materialize_segment c7World c7Args c7Item).1
      = [Effect.mkdir "out/000000", Effect.writeBundle "out/000000/transcripts.json"] := by
  with_unfolding_all decide

/-- Witness for C7 (amended) at a concrete segment whose audio exists. -/
theorem C7_witness :
    materialize_segment c7World c7Args c7Item
      = ([Effect.mkdir (parentDir c7Item.transcript_bundle_path),
          Effect.writeBundle c7Item.transcript_bundle_path], none) :=
  C7_skip_existing_audio c7World c7Args c7Item rfl (by with_unfolding_all rfl)

/-! ### Claim C8 -/

theorem hasWriteIndex_append (l1 l2 : List Effect) :
    hasWriteIndex (l1 ++ l2) = (hasWriteIndex l1 || hasWriteIndex l2) :=
  List.any_append

theorem hasWriteIndex_materialize (w : World) (a : Args) (item : PlanItem) :
    hasWriteIndex (materialize_segment w a item).1 = false := by
  unfold materialize_segment
  split
  · split <;> rfl
  · rfl

theorem hasWriteIndex_materializeSeq (w : World) (a : Args) :
    ∀ items : List PlanItem, hasWriteIndex (materializeSeq w a items).1 = false
  | [] => rfl
  | item :: rest => by
      simp only [materializeSeq]
      split
      · exact hasWriteIndex_materialize w a item
      · rw [hasWriteIndex_append, hasWriteIndex_materialize,
          hasWriteIndex_materializeSeq w a rest]
        rfl

theorem hasWriteIndex_materializePar (w : World) (a : Args) :
    ∀ items : List PlanItem, hasWriteIndex (materializePar w a items).1 = false
  | [] => rfl
  | item :: rest => by
      have ih := hasWriteIndex_materializePar w a rest
      simp only [materializePar, List.map_cons, List.flatMap_cons] at ih ⊢
      rw [hasWriteIndex_append, hasWriteIndex_materialize, ih]
      rfl

theorem hasWriteIndex_loadTracks (w : World) :
    ∀ ts : List (String × TrackMeta), hasWriteIndex (loadTracks w ts).1 = false
  | [] => rfl
  | (k, meta) :: rest => by
      simp only [loadTracks]
      split
      · rfl
      · show hasWriteIndex (Effect.readTranscript meta.path :: (loadTracks w rest).1) = false
        have ih := hasWriteIndex_loadTracks w rest
        simpa [hasWriteIndex] using ih

/-- C8 (amended): when every planned segment materializes without raising,
    the call's last effect is the single index write, whose rows are exactly
    one row per planned segment in plan order (independent of materialization
    outcomes); but when any segment's materialization raises — e.g. a nonzero
    exit of the external audio-cutting tool — the call propagates the
    exception and the index is never written at all. -/
theorem C8_index_rows (w : World) (a : Args) :
    (∀ s : Summary, (create_transcript_aligned_segments w a).2 = Except.ok s →
        s.error = none →
        (create_transcript_aligned_segments w a).1.getLast?
          = some (Effect.writeIndex (a.output_root ++ "/index.jsonl")
              ((planOf w a).map (·.row))))
  ∧ (∀ e : PyErr, (create_transcript_aligned_segments w a).2 = Except.error e →
        hasWriteIndex (create_transcript_aligned_segments w a).1 = false) := by
  constructor
  · intro s hs herr
    simp only [create_transcript_aligned_segments] at hs ⊢
    split at hs
    · simp only [Except.ok.injEq] at hs
      subst hs
      simp at herr
    · next hempty =>
      rw [if_neg hempty]
      split at hs
      · exact absurd hs (by simp)
      · next ebt heq =>
        split at hs
        · exact absurd hs (by simp)
        · next hworkers =>
          rw [if_neg hworkers]
          split at hs
          · exact absurd hs (by simp)
          · next hmat =>
            simp only [hmat]
            simp [planOf, heq, List.getLast?_eq_head?_reverse, List.reverse_append]
  · intro e he
    simp only [create_transcript_aligned_segments] at he ⊢
    split at he
    · exact absurd he (by simp)
    · next hempty =>
      rw [if_neg hempty]
      split at he
      · next err heq =>
        simp only [heq]
        show hasWriteIndex (Effect.mkdir a.output_root :: (loadTracks w _).1) = false
        have hl := hasWriteIndex_loadTracks w
          (_collect_transcript_tracks w a.transcript_summary)
        simpa [hasWriteIndex] using hl
      · next ebt heq =>
        split at he
        · next hw =>
          rw [if_pos hw]
          show hasWriteIndex (Effect.mkdir a.output_root :: (loadTracks w _).1) = false
          have hl := hasWriteIndex_loadTracks w
            (_collect_transcript_tracks w a.transcript_summary)
          simpa [hasWriteIndex] using hl
        · next hw =>
          rw [if_neg hw]
          split at he
          · next err hmat =>
            simp only [hmat]
            have hm : hasWriteIndex
                ((if a.workers = 1 then
                    materializeSeq w a (planSegments a
                      (_collect_transcript_tracks w a.transcript_summary) ebt
                      (baseTrackKey ebt)).1
                  else
                    materializePar w a (planSegments a
                      (_collect_transcript_tracks w a.transcript_summary) ebt
                      (baseTrackKey ebt)).1)).1 = false := by
              split
              · exact hasWriteIndex_materializeSeq w a _
              · exact hasWriteIndex_materializePar w a _
            have hl := hasWriteIndex_loadTracks w
              (_collect_transcript_tracks w a.transcript_summary)
            simp only [hasWriteIndex, List.any_cons, List.any_append] at hm hl ⊢
            simp [hl, hm]
          · next hmat => exact absurd he (by simp)

def c8Doc : Json := .arr
  [.obj [("text", .str "hello"), ("start", .num 0), ("duration", .num 1)]]

def c8Args : Args :=
  { source_audio_path := "a.wav",
    transcript_summary :=
      { default_path := some "t.json", auto_language_path := none,
        auto_language_code := none, available := [] },
    output_root := "out" }

def c8World : World :=
  { files := ["t.json"], content := fun _ => c8Doc, ffmpegFails := fun _ => true }

/-- C8, counterexample: with a non-empty plan (one planned segment) whose
    audio cut fails, the call propagates `CalledProcessError` and the index
    manifest is never written — the failed segment's row does NOT reach
    `index.jsonl`, contradicting the claim. -/
theorem C8_counterexample :
    (planOf c8World c8Args).length = 1
  ∧ (create_transcript_aligned_segments c8World c8Args).2
      = Except.error (.calledProcessError "out/000000/audio.mp3")
  ∧ hasWriteIndex (create_transcript_aligned_segments c8World c8Args).1 = false :=
  ⟨by with_unfolding_all rfl, by with_unfolding_all rfl, by with_unfolding_all rfl⟩

def c8OkWorld : World :=
  { files := ["t.json"], content := fun _ => c8Doc, ffmpegFails := fun _ => false }

/-- Witness for C8 (amended): on a successful one-segment run the final
    effect is the index write carrying the plan's rows. -/
theorem C8_witness :
    (create_transcript_aligned_segments c8OkWorld c8Args).1.getLast?
      = some (Effect.writeIndex (c8Args.output_root ++ "/index.jsonl")
          ((planOf c8OkWorld c8Args).map (·.row))) :=
  (C8_index_rows c8OkWorld c8Args).1
    { segment_count := 1, skipped_count := 0, base_track := some "default",
      index_path := some "out/index.jsonl", segments_dir := "out", error := none }
    (by with_unfolding_all rfl) rfl

/-! ### Claim C9 -/

/-- C9: the track loader defaults missing `text`/`start`/`duration` fields
    to `""`/`0.0`/`0.0`, skips non-object array elements, coerces a negative
    `duration` to `0.0` while leaving `start` unclamped, and turns a
    non-array top-level JSON value into an empty track instead of an
    error. -/
theorem C9_loader (j : Json) (hj : j.isArr = false)
    (k : Json) (hk : k.isObj = false) (items : List Json)
    (t : String) (s d : ℚ) (hd : d < 0) :
    _load_entries j = some []
  ∧ _load_entries (.arr (k :: items)) = _load_entries (.arr items)
  ∧ _load_entries (.arr [.obj []]) = some [⟨"", 0, 0⟩]
  ∧ _load_entries (.arr [.obj [("text", .str t),
        ("start", .num s), ("duration", .num d)]]) = some [⟨pyStrip t, s, 0⟩]
  ∧ _load_entries (.arr [.obj [("start", .num s)]]) = some [⟨"", s, 0⟩] := by
  refine ⟨?_, ?_, by with_unfolding_all rfl, ?_, by with_unfolding_all rfl⟩
  · cases j <;> first
      | rfl
      | (exact absurd hj (by simp [Json.isArr]))
  · cases k <;> first
      | rfl
      | (exact absurd hk (by simp [Json.isObj]))
  · show (some [⟨pyStrip t, s, if d < 0 then 0 else d⟩] : Option (List Entry))
        = some [⟨pyStrip t, s, 0⟩]
    rw [if_pos hd]

/-- Witness for C9 at concrete inputs: a non-array document (`null`), a
    skipped non-object element (`true`), a negative duration `-2` clamped to
    `0` with a negative start `-3` preserved. -/
theorem C9_witness :
    _load_entries Json.null = some []
  ∧ _load_entries (.arr [.bool true]) = _load_entries (.arr [])
  ∧ _load_entries (.arr [.obj []]) = some [⟨"", 0, 0⟩]
  ∧ _load_entries (.arr [.obj [("text", .str " hi "),
        ("start", .num (-3)), ("duration", .num (-2))]])
      = some [⟨pyStrip " hi ", -3, 0⟩]
  ∧ _load_entries (.arr [.obj [("start", .num (-3))]]) = some [⟨"", -3, 0⟩] :=
  C9_loader Json.null rfl (.bool true) rfl [] " hi " (-3) (-2)
    (by with_unfolding_all decide)

end Seg
